import Mathlib

/-!
Verification development for the TV fitness timer and workout guide frontend.

This file gives a shallow embedding of the core subsystems named by the
specification:
* the drift-safe countdown engine from `src/fitness_timer_frontend/src/utils/time.js`
  (`countdown`, its inner `computeRemaining`, `tick`, `pause`, `resume`, `cancel`,
  and the scheduling loop built on `startDriftSafeInterval`);
* the D-pad grid navigation coordinator from
  `src/fitness_timer_frontend/src/hooks/useDpadNavigation.js`
  (`handleArrow`, `setFocused`);
* the focusable registry and focus router from
  `src/fitness_timer_frontend/src/components/FocusManager.js`
  (`register` and its disposer, `setFocus`, `moveFocus`, `getFocus`).

Monotonic clock readings (`performance.now()`, in milliseconds) are embedded
as integers (`ℤ`); the sub-second rounding `Math.ceil(remainMs / 1000)` is
embedded as the integer ceiling division `ceilDiv1000`, proved below to agree
with the mathematical ceiling `⌈x / 1000⌉` over `ℚ`.  JavaScript callbacks
(`onTick`, `onComplete`) are embedded as an event log carried in the state.
-/

namespace FitnessTimer

namespace Countdown

/-- Embedding of `Math.ceil(x / 1000)` for an integer number of milliseconds `x`:
the least integer `≥ x / 1000`, computed as `-((-x) / 1000)` with
floor-rounding integer division. -/
def ceilDiv1000 (x : ℤ) : ℤ := -((-x) / 1000)

/-- Engine state of `countdown({durationSeconds, onTick, onComplete, tickRateMs})`
from `time.js`.  `endTime`, `paused`, `pauseStartedAt`, `accumulatedPause` and
`completed` are the closure variables of the source; `active` is the liveness
flag of the drift-safe interval that `cancelInterval` flips off
(`startDriftSafeInterval`'s `active`); `onTickLog` records the successive
arguments passed to `onTick`, and `onCompleteCount` how often `onComplete`
fired. -/
structure State where
  endTime : ℤ
  totalSeconds : ℤ
  paused : Bool
  pauseStartedAt : ℤ
  accumulatedPause : ℤ
  active : Bool
  completed : Bool
  onTickLog : List ℤ
  onCompleteCount : ℕ
  deriving Repr, DecidableEq

/-- Embedding of `paused ? pauseStartedAt : now` from `computeRemaining` in `time.js`. -/
def effectiveNow (s : State) (now : ℤ) : ℤ :=
  if s.paused then s.pauseStartedAt else now

/-- Embedding of `computeRemaining` from `time.js`:
`Math.ceil(Math.max(0, endTime + accumulatedPause - effectiveNow) / 1000)`. -/
def computeRemaining (s : State) (now : ℤ) : ℤ :=
  ceilDiv1000 (max 0 (s.endTime + s.accumulatedPause - effectiveNow s now))

/-- Embedding of `tick` from `time.js`: early-return when completed, report the remaining
seconds through `onTick`, and on reaching zero set `completed`, cancel the
interval and fire `onComplete` (once). -/
def tick (now : ℤ) (s : State) : State :=
  if s.completed then s
  else
    let remaining := computeRemaining s now
    let s1 := { s with onTickLog := s.onTickLog ++ [remaining] }
    if remaining ≤ 0 then
      { s1 with completed := true, active := false,
                onCompleteCount := s1.onCompleteCount + 1 }
    else s1

/-- One firing of the scheduled interval callback: `startDriftSafeInterval`'s
`tick` returns immediately when the interval was cancelled (`active = false`),
and the callback installed by `loop()` runs the engine's `tick` only when not
paused. -/
def scheduledTick (now : ℤ) (s : State) : State :=
  if s.active then (if s.paused then s else tick now s) else s

/-- Embedding of `pause` from `time.js`. -/
def pause (now : ℤ) (s : State) : State :=
  if s.paused || s.completed then s
  else { s with paused := true, pauseStartedAt := now }

/-- Embedding of `resume` from `time.js`. -/
def resume (now : ℤ) (s : State) : State :=
  if !s.paused || s.completed then s
  else { s with accumulatedPause := s.accumulatedPause + (now - s.pauseStartedAt),
                paused := false }

/-- Embedding of `cancel` from `time.js`: invokes `cancelInterval`, which sets the
interval's `active` flag to false and clears the pending timeout. -/
def cancel (s : State) : State :=
  { s with active := false }

/-- The `{paused, completed, remaining, total}` snapshot of `getState`. -/
structure Snapshot where
  paused : Bool
  completed : Bool
  remaining : ℤ
  total : ℤ
  deriving Repr, DecidableEq

/-- Embedding of `getState` from `time.js`, at clock reading `now`. -/
def getState (s : State) (now : ℤ) : Snapshot :=
  ⟨s.paused, s.completed, computeRemaining s now, s.totalSeconds⟩

/-- The engine state right after `countdown({...})` returns, created at clock
reading `startTime`: closure variables initialised, `loop()` started the
interval, and the priming `tick()` already ran. -/
def init (durationSeconds startTime : ℤ) : State :=
  tick startTime
    { endTime := startTime + durationSeconds * 1000
      totalSeconds := durationSeconds
      paused := false
      pauseStartedAt := 0
      accumulatedPause := 0
      active := true
      completed := false
      onTickLog := []
      onCompleteCount := 0 }

/-- An externally observable event hitting a countdown engine: a scheduled
interval firing, or one of the control calls `pause()`, `resume()`, `cancel()`.
Each event carries the monotonic clock reading at which it happens (`cancel`
does not read the clock in the source; its timestamp only orders the trace). -/
inductive Event where
  | tick (now : ℤ)
  | pause (now : ℤ)
  | resume (now : ℤ)
  | cancel (now : ℤ)
  deriving Repr, DecidableEq

/-- The clock reading at which an event happens. -/
def Event.time : Event → ℤ
  | .tick now => now
  | .pause now => now
  | .resume now => now
  | .cancel now => now

/-- Applying one event to the engine state. -/
def step (s : State) : Event → State
  | .tick now => scheduledTick now s
  | .pause now => pause now s
  | .resume now => resume now s
  | .cancel _ => cancel s

/-- Applying a whole event trace, left to right. -/
def run (s : State) (evts : List Event) : State :=
  evts.foldl step s

/-- The events of a trace happen at nondecreasing clock readings, all at or
after the baseline `t0`. -/
def timesMono (t0 : ℤ) : List Event → Prop
  | [] => True
  | e :: es => t0 ≤ e.time ∧ timesMono e.time es

/-- The `getState().remaining` values observed right after each event of a
trace, each read at that event's clock time. -/
def obsSeq (s : State) : List Event → List ℤ
  | [] => []
  | e :: es => computeRemaining (step s e) e.time :: obsSeq (step s e) es

/-- Coupled state of the engine and its `startDriftSafeInterval` loop:
`count` is the interval's tick counter and `nextFire` the clock time at which
the pending `setTimeout` callback will run. -/
structure SimState where
  engine : State
  count : ℕ
  nextFire : ℤ
  deriving Repr, DecidableEq

/-- One wake-up of the drift-safe interval under ideal simulated time (each
`setTimeout(tick, d)` callback runs exactly `d` ms after being scheduled).
Mirrors `startDriftSafeInterval`'s `tick`: return if cancelled; otherwise
`target = start + ++count * intervalMs`, `drift = now - target`, run the
callback (`if (!paused) tick()`), and re-arm after
`Math.max(0, intervalMs - drift)`. -/
def simStep (intervalMs startT : ℤ) (st : SimState) : SimState :=
  if st.engine.active then
    let count := st.count + 1
    let now := st.nextFire
    let target := startT + (count : ℤ) * intervalMs
    let drift := now - target
    let engine1 := if st.engine.paused then st.engine else tick now st.engine
    let nextDelay := max 0 (intervalMs - drift)
    ⟨engine1, count, now + nextDelay⟩
  else st

/-- Running `n` wake-ups of the interval loop of `countdown(durationSeconds, …)` with
tick rate `intervalMs`, created at clock time 0; the first wake-up is armed
with `firstDelay = intervalMs`. -/
def simRun (durationSeconds intervalMs : ℤ) (n : ℕ) : SimState :=
  (simStep intervalMs 0)^[n] ⟨init durationSeconds 0, 0, intervalMs⟩

end Countdown

namespace Dpad

/-- The four normalized arrow keys `handleArrow` can receive (its caller
`onKeyDown` only forwards keys satisfying `isArrow`). -/
inductive ArrowKey where
  | up
  | down
  | left
  | right
  deriving Repr, DecidableEq

/-- The `{ focusedRowIndex, focusedColIndex }` state of `useDpadNavigation`. -/
structure DpadState where
  focusedRow : ℤ
  focusedCol : ℤ
  deriving Repr, DecidableEq

/-- The local `clamp` of `useDpadNavigation.js`:
`Math.max(min, Math.min(max, val))`. -/
def clampJS (val mn mx : ℤ) : ℤ := max mn (min mx val)

/-- Embedding of JavaScript `n || 1` for an integer `n`: `0` is falsy, every other integer
is truthy. -/
def orOne (n : ℤ) : ℤ := if n = 0 then 1 else n

/-- Embedding of `handleArrow` from `useDpadNavigation.js`: move the candidate index by one
along the key's axis, wrap (when `loop`) or stop at the edge, then clamp both
indices defensively to `[0, Math.max(0, (count || 1) - 1)]` before storing
them via `setFocused`. -/
def handleArrow (rowCount colCount : ℤ) (loop : Bool) (key : ArrowKey)
    (s : DpadState) : DpadState :=
  let nextRow :=
    match key with
    | .up =>
        let nr := s.focusedRow - 1
        if nr < 0 then (if loop then rowCount - 1 else 0) else nr
    | .down =>
        let nr := s.focusedRow + 1
        if nr ≥ rowCount then (if loop then 0 else rowCount - 1) else nr
    | _ => s.focusedRow
  let nextCol :=
    match key with
    | .left =>
        let nc := s.focusedCol - 1
        if nc < 0 then (if loop then colCount - 1 else 0) else nc
    | .right =>
        let nc := s.focusedCol + 1
        if nc ≥ colCount then (if loop then 0 else colCount - 1) else nc
    | _ => s.focusedCol
  ⟨clampJS nextRow 0 (max 0 (orOne rowCount - 1)),
   clampJS nextCol 0 (max 0 (orOne colCount - 1))⟩

/-- The `setFocused(r, c)` handler returned by the hook: it stores the given
indices as-is (`setFocusedRowIndex(r); setFocusedColIndex(c)`), with no
clamping; the scroll/focus side effects do not touch the indices. -/
def setFocused (r c : ℤ) (_ : DpadState) : DpadState := ⟨r, c⟩

/-- The invariant claimed by the specification for `GridNavigationState`:
`0 ≤ focusedRow < max(rowCount, 1)` and `0 ≤ focusedCol < max(colCount, 1)`. -/
def dpadInv (rowCount colCount : ℤ) (s : DpadState) : Prop :=
  0 ≤ s.focusedRow ∧ s.focusedRow < max rowCount 1 ∧
  0 ≤ s.focusedCol ∧ s.focusedCol < max colCount 1

instance (rowCount colCount : ℤ) (s : DpadState) :
    Decidable (dpadInv rowCount colCount s) := by
  unfold dpadInv; infer_instance

/-- Modelled from the spec (§4.4): one-dimensional arrow movement as the spec
words it — "compute candidate next row/col by ±1 along the relevant axis; if
the result exits [0, count-1] then, if `loop` is true, wrap to the opposite
end, else clamp to the boundary". -/
def specStep1D (count : ℤ) (loop : Bool) (pos dir : ℤ) : ℤ :=
  let cand := pos + dir
  if cand < 0 then (if loop then count - 1 else 0)
  else if cand > count - 1 then (if loop then 0 else count - 1)
  else cand

/-- Modelled from the spec (§4.4): the arrow-key transition on the grid state,
moving ±1 along the relevant axis with wrap/clamp, leaving the other axis
unchanged. -/
def specArrowMove (rowCount colCount : ℤ) (loop : Bool) (key : ArrowKey)
    (s : DpadState) : DpadState :=
  match key with
  | .up => ⟨specStep1D rowCount loop s.focusedRow (-1), s.focusedCol⟩
  | .down => ⟨specStep1D rowCount loop s.focusedRow 1, s.focusedCol⟩
  | .left => ⟨s.focusedRow, specStep1D colCount loop s.focusedCol (-1)⟩
  | .right => ⟨s.focusedRow, specStep1D colCount loop s.focusedCol 1⟩

end Dpad

namespace FocusMgr

/-- A registry entry `{ id, ref, meta }` from `FocusManager.js`; `node` records
whether `ref.current` is a live DOM node at the time of use. -/
structure Entry where
  id : String
  node : Bool
  deriving Repr, DecidableEq

/-- The focus router state: the `Map`-backed registry in insertion order, and
the tracked `currentId` (a string or `null`). -/
structure RouterState where
  registry : List Entry
  currentId : Option String
  deriving Repr, DecidableEq

/-- Embedding of `registryRef.current.set(id, entry)`: JavaScript `Map.set` overwrites the
value in place for an existing key (insertion position preserved) and appends
for a new key. -/
def registrySet (id : String) (node : Bool) (reg : List Entry) : List Entry :=
  if reg.any (fun e => e.id = id) then
    reg.map (fun e => if e.id = id then ⟨id, node⟩ else e)
  else reg ++ [⟨id, node⟩]

/-- Embedding of `registryRef.current.delete(id)`: removes the entry stored under `id`,
a no-op when absent.  This is the body of the disposer closure returned by
`register` (which captures only `id`). -/
def registryDelete (id : String) (reg : List Entry) : List Entry :=
  reg.filter (fun e => e.id ≠ id)

/-- Embedding of `register(id, ref, meta)` from `FocusManager.js` (its effect on state). -/
def register (id : String) (node : Bool) (s : RouterState) : RouterState :=
  { s with registry := registrySet id node s.registry }

/-- Calling the disposer returned by `register(id, …)` (its effect on state);
the closure deletes by the captured `id` and does not touch `currentId`. -/
def unregister (id : String) (s : RouterState) : RouterState :=
  { s with registry := registryDelete id s.registry }

/-- Embedding of `registryRef.current.get(id)` (via `getById`). -/
def getById (id : String) (reg : List Entry) : Option Entry :=
  reg.find? (fun e => e.id = id)

/-- Embedding of JavaScript `Array.prototype.findIndex`: index of the first match, `-1`
when none. -/
def findIndexJS (p : Entry → Bool) (l : List Entry) : ℤ :=
  match l.findIdx? p with
  | some i => (i : ℤ)
  | none => -1

/-- Embedding of `moveFocus(delta)` from `FocusManager.js` (the version with scroll
guards): with an empty registry return; compute
`currentIndex = Math.max(0, entries.findIndex(e => e.id === currentId))`,
`nextIndex = currentIndex + delta` clamped into `[0, entries.length - 1]`;
then, only if the entry at `nextIndex` has a live DOM node, set `currentId`
to its id (scroll and focus are UI side effects).  An out-of-range JS array
access would yield `undefined`, which the `next && node` guard treats like a
dead node; it is embedded as a `getD` default with `node = false`. -/
def moveFocus (delta : ℤ) (s : RouterState) : RouterState :=
  if s.registry.length = 0 then s
  else
    let currentIndex : ℤ :=
      max 0 (findIndexJS (fun e => s.currentId = some e.id) s.registry)
    let n1 := currentIndex + delta
    let n2 := if n1 < 0 then 0 else n1
    let nextIndex := if n2 ≥ (s.registry.length : ℤ) then (s.registry.length : ℤ) - 1 else n2
    let next := s.registry.getD nextIndex.toNat ⟨"", false⟩
    if next.node then { s with currentId := some next.id } else s

/-- Modelled from the spec (§4.3): the target index `moveFocus(delta)` should
pick — the current entry's index in insertion order (unmatched or null
`currentId` counting as index 0), plus `delta`, clamped to `[0, count-1]`. -/
def moveFocusIdx (delta : ℤ) (s : RouterState) : ℤ :=
  min ((s.registry.length : ℤ) - 1)
    (max 0 (max 0 (findIndexJS (fun e => s.currentId = some e.id) s.registry) + delta))

/-- The UI side effects `setFocus` can attempt on a live target. -/
inductive UIAct where
  | scrollSmooth
  | scrollPlain
  | focusApply
  deriving Repr, DecidableEq

/-- Which of the UI operations are available and which of them throw when
invoked, for one `setFocus` call: `scrollFn` is
`typeof node.scrollIntoView === 'function'`, `focusFn` is
`typeof node.focus === 'function'`, and the `…Throws` flags say whether the
corresponding native call raises. -/
structure UIEnv where
  scrollFn : Bool
  smoothThrows : Bool
  plainThrows : Bool
  focusFn : Bool
  focusThrows : Bool
  deriving Repr, DecidableEq

/-- Embedding of JavaScript `try { a } catch { h }`. -/
def tryCatch {α : Type} (a : Except String α) (h : Except String α) :
    Except String α :=
  match a with
  | .ok v => .ok v
  | .error _ => h

/-- The scroll block of `setFocus`: try smooth `scrollIntoView` (guarded by a
`typeof` check), on a throw fall back to plain `scrollIntoView`, swallowing a
second throw. -/
def scrollBlock (env : UIEnv) : Except String (List UIAct) :=
  tryCatch
    (if env.scrollFn then
       (if env.smoothThrows then .error "scrollIntoView" else .ok [.scrollSmooth])
     else .ok [])
    (tryCatch
      (if env.plainThrows then .error "scrollIntoView" else .ok [.scrollPlain])
      (.ok []))

/-- The focus block of `setFocus`: try `node.focus()` (guarded by a `typeof`
check), swallowing a throw. -/
def focusBlock (env : UIEnv) : Except String (List UIAct) :=
  tryCatch
    (if env.focusFn then
       (if env.focusThrows then .error "focus" else .ok [.focusApply])
     else .ok [])
    (.ok [])

/-- Embedding of `setFocus(id)` from `FocusManager.js` (the version with scroll guards):
`setCurrentId(id)` unconditionally; then, when the registry holds an entry
for `id` whose `ref.current` is a live node, attempt scroll-into-view and
then UI focus.  The result is the new state plus the list of UI operations
that took effect; a propagated exception would surface as `.error`. -/
def setFocusRun (id : String) (s : RouterState) (env : UIEnv) :
    Except String (RouterState × List UIAct) := do
  let s1 : RouterState := { s with currentId := some id }
  match getById id s1.registry with
  | some e =>
      if e.node then do
        let a ← scrollBlock env
        let b ← focusBlock env
        return (s1, a ++ b)
      else return (s1, [])
  | none => return (s1, [])

end FocusMgr

end FitnessTimer

namespace FitnessTimer

namespace Countdown

/-- The integer division `ceilDiv1000` is exactly the mathematical ceiling
of `x / 1000`, i.e. `Math.ceil` applied to the real quotient. -/
theorem ceilDiv1000_eq_ceil (x : ℤ) : ceilDiv1000 x = ⌈(x : ℚ) / 1000⌉ := by
  have h : ⌈(x : ℚ) / 1000⌉ = -⌊-((x : ℚ) / 1000)⌋ := by
    rw [Int.floor_neg, neg_neg]
  rw [ceilDiv1000, h]
  congr 1
  rw [show -((x : ℚ) / 1000) = (((-x : ℤ) : ℚ) / ((1000 : ℕ) : ℚ)) by push_cast; ring]
  exact (Rat.floor_intCast_div_natCast (-x) 1000).symm

/-- A positive number of remaining milliseconds rounds up to at least one
remaining second. -/
theorem ceilDiv1000_pos (x : ℤ) (h : 0 < x) : 0 < ceilDiv1000 x := by
  unfold ceilDiv1000
  omega

/-- Rounding up to whole seconds is monotone. -/
theorem ceilDiv1000_mono {x y : ℤ} (h : x ≤ y) : ceilDiv1000 x ≤ ceilDiv1000 y := by
  unfold ceilDiv1000
  omega

end Countdown

open Countdown Dpad FocusMgr

/-- C1: for every countdown engine created with `durationSeconds > 0`, at every
moment the value reported as remaining equals
`ceil(max(0, endTimestamp + accumulatedPauseMs - effectiveNow) / 1000)`, where
`effectiveNow` is `pauseStartedAt` when paused and the current monotonic time
otherwise; in particular the displayed value never reads 0 strictly before the
true deadline `endTimestamp + accumulatedPauseMs`. -/
theorem claim1_remaining_formula (s : State) (now : ℤ)
    (_hdur : 0 < s.totalSeconds) :
    (getState s now).remaining
      = ⌈(max 0 ((s.endTime + s.accumulatedPause - effectiveNow s now : ℤ) : ℚ)) / 1000⌉
    ∧ (effectiveNow s now < s.endTime + s.accumulatedPause →
        0 < (getState s now).remaining) := by
  constructor
  · show computeRemaining s now = _
    rw [computeRemaining, ceilDiv1000_eq_ceil]
    congr 1
    push_cast
    rfl
  · intro h
    show 0 < computeRemaining s now
    apply ceilDiv1000_pos
    omega

/-- Witness for C1 at a concrete engine: `countdown(5, …)` created at time 0,
observed at time 250, strictly before its deadline, reads a positive value. -/
theorem claim1_witness : 0 < (getState (init 5 0) 250).remaining :=
  (claim1_remaining_formula (init 5 0) 250 (by decide)).2 (by decide)

/-- C5 counterexample: the `setFocused(row, col)` handler returned by
`useDpadNavigation` stores the given indices without clamping, so after
`setFocused(10, 10)` on a 3x1 grid the claimed invariant
`0 ≤ focusedRow < max(rowCount, 1)` is violated. -/
theorem claim5_counterexample :
    setFocused 10 10 ⟨0, 0⟩ = ⟨10, 10⟩ ∧ ¬ dpadInv 3 1 (setFocused 10 10 ⟨0, 0⟩) :=
  ⟨rfl, by decide⟩

/-- C5 amended: after every handled arrow key — for every integer `rowCount`
and `colCount` including degenerate values ≤ 0, every `loop` flag, and every
starting state (even out of range) — the coordinator state satisfies
`0 ≤ focusedRow < max(rowCount, 1)` and `0 ≤ focusedCol < max(colCount, 1)`;
`setFocused` and the initial configuration, by contrast, store the given
indices unclamped (see the counterexample). -/
theorem claim5_arrow_keeps_invariant (rowCount colCount : ℤ) (loop : Bool)
    (key : ArrowKey) (s : DpadState) :
    dpadInv rowCount colCount (handleArrow rowCount colCount loop key s) := by
  rcases key <;>
    simp only [handleArrow, dpadInv, clampJS, orOne] <;>
    split_ifs <;> omega

/-- C6: on an in-range state of a grid with `rowCount, colCount ≥ 1`, every
arrow key moves the focus by ±1 along its axis, wrapping to the opposite end
when `loop` is true and clamping to the boundary when `loop` is false
(the spec-side transition `specArrowMove`); with `rowCount = 3, colCount = 1`,
ArrowUp at row 0 gives row 0 without loop and row 2 with loop (see witness). -/
theorem claim6_arrow_matches_spec (rowCount colCount : ℤ) (loop : Bool)
    (key : ArrowKey) (r c : ℤ) (hrc : 1 ≤ rowCount) (hcc : 1 ≤ colCount)
    (hr0 : 0 ≤ r) (hr1 : r < rowCount) (hc0 : 0 ≤ c) (hc1 : c < colCount) :
    handleArrow rowCount colCount loop key ⟨r, c⟩
      = specArrowMove rowCount colCount loop key ⟨r, c⟩ := by
  rcases key <;>
    simp only [handleArrow, specArrowMove, specStep1D, clampJS, orOne,
      DpadState.mk.injEq] <;>
    split_ifs <;> omega

/-- Witness for C6: the two concrete 3x1 scenarios of the specification. -/
theorem claim6_witness :
    handleArrow 3 1 true .up ⟨0, 0⟩ = ⟨2, 0⟩
    ∧ handleArrow 3 1 false .up ⟨0, 0⟩ = ⟨0, 0⟩ :=
  ⟨(claim6_arrow_matches_spec 3 1 true .up 0 0 (by decide) (by decide) (by decide)
      (by decide) (by decide) (by decide)).trans (by decide),
   (claim6_arrow_matches_spec 3 1 false .up 0 0 (by decide) (by decide) (by decide)
      (by decide) (by decide) (by decide)).trans (by decide)⟩

/-- C10: calling `cancel()` twice on a countdown engine, or the disposer
returned by `register` twice, has no observable effect beyond the first call,
in any state: the second call returns a state equal to the first call's
result; moreover `cancel` never changes any `getState()` field and the
disposer never touches `currentId`. -/
theorem claim10_idempotence :
    (∀ s : State, cancel (cancel s) = cancel s)
    ∧ (∀ (s : State) (now : ℤ), getState (cancel s) now = getState s now)
    ∧ (∀ (id : String) (r : RouterState),
        unregister id (unregister id r) = unregister id r)
    ∧ (∀ (id : String) (r : RouterState),
        (unregister id r).currentId = r.currentId) := by
  refine ⟨fun s => rfl, fun s now => rfl, fun id r => ?_, fun id r => rfl⟩
  simp [unregister, registryDelete, List.filter_filter]

/-- C4 counterexample: in the simulated `countdown(5, onTick, onComplete)`
run at the default 250 ms tick rate, the full sequence of integers passed to
`onTick` is `[5, 5, 5, 5, 4, …, 1, 0]` — consecutive ticks repeat the same
second value, so the sequence is not strictly decreasing (neither as a whole
nor before its final 0). -/
theorem claim4_counterexample :
    (simRun 5 250 25).engine.onTickLog
      = [5, 5, 5, 5, 4, 4, 4, 4, 3, 3, 3, 3, 2, 2, 2, 2, 1, 1, 1, 1, 0]
    ∧ ¬ List.Chain' (fun a b => b < a) (simRun 5 250 25).engine.onTickLog
    ∧ ¬ List.Chain' (fun a b => b < a)
        (simRun 5 250 25).engine.onTickLog.dropLast := by
  have hlog : (simRun 5 250 25).engine.onTickLog
      = [5, 5, 5, 5, 4, 4, 4, 4, 3, 3, 3, 3, 2, 2, 2, 2, 1, 1, 1, 1, 0] := by decide
  refine ⟨hlog, ?_, ?_⟩ <;> rw [hlog] <;> norm_num [List.chain'_cons]

/-- C4 amended: for `countdown(5, onTick, onComplete)` at the default 250 ms
tick rate, `onTick` fires once immediately at creation (with 5); after 5000 ms
of simulated monotonic time `onComplete` has fired exactly once and
`getState().completed` is true (completion happens at the 5000 ms tick, not
before); and the full sequence of integers passed to `onTick` is
non-increasing, ends at 0, and contains 0 exactly once. -/
theorem claim4_simulation :
    (init 5 0).onTickLog = [5]
    ∧ (simRun 5 250 19).engine.completed = false
    ∧ (simRun 5 250 20).engine.completed = true
    ∧ (simRun 5 250 20).engine.onCompleteCount = 1
    ∧ (simRun 5 250 25).engine.onCompleteCount = 1
    ∧ (simRun 5 250 25).engine.completed = true
    ∧ List.Chain' (fun a b => b ≤ a) (simRun 5 250 25).engine.onTickLog
    ∧ (simRun 5 250 25).engine.onTickLog.getLast? = some 0
    ∧ (simRun 5 250 25).engine.onTickLog.count 0 = 1 := by
  have hlog : (simRun 5 250 25).engine.onTickLog
      = [5, 5, 5, 5, 4, 4, 4, 4, 3, 3, 3, 3, 2, 2, 2, 2, 1, 1, 1, 1, 0] := by decide
  refine ⟨by decide, by decide, by decide, by decide, by decide, by decide, ?_,
    by decide, by decide⟩
  rw [hlog]
  norm_num [List.chain'_cons]

/-- Unfolding of `registryDelete` on a non-empty registry. -/
theorem registryDelete_cons (id : String) (e : Entry) (rest : List Entry) :
    registryDelete id (e :: rest)
      = if e.id = id then registryDelete id rest
        else e :: registryDelete id rest := by
  simp only [registryDelete, List.filter_cons]
  by_cases h : e.id = id <;> simp [h]

/-- Deleting an id from the registry gives the same result before and after
the in-place overwrite that `Map.set` performs for an existing key. -/
theorem registryDelete_of_overwrite (id : String) (node : Bool) :
    ∀ reg : List Entry,
      registryDelete id (reg.map (fun e => if e.id = id then ⟨id, node⟩ else e))
        = registryDelete id reg
  | [] => rfl
  | e :: rest => by
    by_cases h : e.id = id
    · rw [List.map_cons, if_pos h, registryDelete_cons, if_pos rfl,
        registryDelete_cons, if_pos h]
      exact registryDelete_of_overwrite id node rest
    · rw [List.map_cons, if_neg h, registryDelete_cons, if_neg h,
        registryDelete_cons, if_neg h, registryDelete_of_overwrite id node rest]

/-- C9 counterexample: re-registering an id overwrites the entry in place, and
then invoking the disposer returned by the FIRST `register("a", …)` call —
which deletes by the captured id — removes the NEWER entry: the claim that an
older disposer does not remove the newer entry is false. -/
theorem claim9_counterexample :
    registrySet "a" true (registrySet "a" false []) = [⟨"a", true⟩]
    ∧ registryDelete "a" (registrySet "a" true (registrySet "a" false [])) = [] :=
  ⟨by decide, by decide⟩

/-- C9 amended: `register(id, …)` appends an entry for an unseen id at the end
of the insertion order and overwrites in place (same position sequence) for a
pre-existing id; the disposer it returns deletes whatever entry is currently
stored under that id — so after the same id is re-registered, the older
disposer removes the newer entry (equivalently, disposal after a re-register
equals disposal before it) — and a second disposal is a no-op. -/
theorem claim9_register_disposer (id : String) (node : Bool) (reg : List Entry) :
    (id ∉ reg.map Entry.id → registrySet id node reg = reg ++ [⟨id, node⟩])
    ∧ (id ∈ reg.map Entry.id →
        (registrySet id node reg).map Entry.id = reg.map Entry.id)
    ∧ (∀ e ∈ registryDelete id reg, e.id ≠ id)
    ∧ registryDelete id (registrySet id node reg) = registryDelete id reg
    ∧ registryDelete id (registryDelete id reg) = registryDelete id reg := by
  refine ⟨?_, ?_, ?_, ?_, ?_⟩
  · intro h
    have hany : reg.any (fun e => e.id = id) = false := by
      simp only [List.any_eq_false, decide_eq_true_eq]
      intro e he heq
      exact h (heq ▸ List.mem_map_of_mem Entry.id he)
    simp [registrySet, hany]
  · intro h
    have hany : reg.any (fun e => e.id = id) = true := by
      simp only [List.any_eq_true, decide_eq_true_eq]
      rcases List.mem_map.mp h with ⟨e, he, heq⟩
      exact ⟨e, he, heq⟩
    simp only [registrySet, hany, if_true, List.map_map]
    apply List.map_congr_left
    intro e _
    by_cases hcase : e.id = id
    · simp [hcase]
    · simp [hcase]
  · intro e he
    have := List.of_mem_filter he
    simpa using this
  · unfold registrySet
    split_ifs with hany
    · exact registryDelete_of_overwrite id node reg
    · simp [registryDelete, List.filter_append]
  · simp [registryDelete, List.filter_filter]

/-- Both attempts of the scroll block are wrapped in try/catch, so it always
returns normally. -/
theorem scrollBlock_isOk (env : UIEnv) : ∃ a, scrollBlock env = .ok a := by
  unfold scrollBlock FocusMgr.tryCatch
  split_ifs <;> exact ⟨_, rfl⟩

/-- The focus block is wrapped in try/catch, so it always returns normally. -/
theorem focusBlock_isOk (env : UIEnv) : ∃ a, focusBlock env = .ok a := by
  unfold focusBlock FocusMgr.tryCatch
  split_ifs <;> exact ⟨_, rfl⟩

/-- C8: for every id — including ids with no registered entry — `setFocus(id)`
updates `currentId` to `id` unconditionally and returns normally for every
combination of scroll/focus support and failures (failures are swallowed,
never propagated); the UI side effects are attempted only when a registered
entry with a live UI target exists. -/
theorem claim8_setFocus_swallows (id : String) (s : RouterState) (env : UIEnv) :
    (∃ acts, setFocusRun id s env
        = .ok ({ s with currentId := some id }, acts))
    ∧ (getById id s.registry = none →
        setFocusRun id s env = .ok ({ s with currentId := some id }, []))
    ∧ (∀ e, getById id s.registry = some e → e.node = false →
        setFocusRun id s env = .ok ({ s with currentId := some id }, [])) := by
  obtain ⟨a, ha⟩ := scrollBlock_isOk env
  obtain ⟨b, hb⟩ := focusBlock_isOk env
  refine ⟨?_, ?_, ?_⟩
  · rcases hget : getById id s.registry with _ | e
    · exact ⟨[], by (simp [setFocusRun, hget]; rfl)⟩
    · by_cases hnode : e.node
      · exact ⟨a ++ b, by (simp [setFocusRun, hget, hnode, ha, hb]; rfl)⟩
      · exact ⟨[], by (simp [setFocusRun, hget, hnode]; rfl)⟩
  · intro hget
    (simp [setFocusRun, hget]; rfl)
  · intro e hget hnode
    (simp [setFocusRun, hget, hnode]; rfl)

/-- Witness for C8 at a concrete call: the target entry exists but its UI node
is dead, so only `currentId` changes and no UI action runs. -/
theorem claim8_witness :
    setFocusRun "a" ⟨[⟨"a", false⟩], none⟩ ⟨true, true, true, true, true⟩
      = .ok (⟨[⟨"a", false⟩], some "a"⟩, []) :=
  (claim8_setFocus_swallows "a" ⟨[⟨"a", false⟩], none⟩
    ⟨true, true, true, true, true⟩).2.2 ⟨"a", false⟩ (by decide) (by decide)

/-- C7 counterexample: with one registered entry whose DOM node is dead and a
null `currentId`, `moveFocus(0)` leaves `currentId` at null, so `getFocus()`
is not the id of any of the N = 1 registered entries. -/
theorem claim7_counterexample :
    moveFocus 0 ⟨[⟨"a", false⟩], none⟩ = ⟨[⟨"a", false⟩], none⟩
    ∧ (moveFocus 0 ⟨[⟨"a", false⟩], none⟩).currentId ≠ some "a" :=
  ⟨by decide, by decide⟩

/-- C7 amended: on a non-empty registry, `moveFocus(delta)` computes the
current entry's index in insertion order (unmatched or null `currentId`
counting as 0), adds `delta` and clamps into `[0, N-1]` (`moveFocusIdx`, which
is always in range, so the array access is safe and `moveFocus` is total and
never throws); if the entry at that index has a live DOM node it becomes the
focus — `currentId` is then one of the registered ids — and otherwise the call
leaves the state unchanged.  With an empty registry it is a no-op. -/
theorem claim7_moveFocus_clamps (delta : ℤ) (s : RouterState) :
    (s.registry = [] → moveFocus delta s = s)
    ∧ (s.registry ≠ [] →
        0 ≤ moveFocusIdx delta s
        ∧ (moveFocusIdx delta s).toNat < s.registry.length
        ∧ ((s.registry.getD (moveFocusIdx delta s).toNat ⟨"", false⟩).node = true →
            moveFocus delta s
              = ⟨s.registry,
                 some (s.registry.getD (moveFocusIdx delta s).toNat ⟨"", false⟩).id⟩
            ∧ (s.registry.getD (moveFocusIdx delta s).toNat ⟨"", false⟩).id
                ∈ s.registry.map Entry.id)
        ∧ ((s.registry.getD (moveFocusIdx delta s).toNat ⟨"", false⟩).node = false →
            moveFocus delta s = s)) := by
  constructor
  · intro h
    simp [moveFocus, h]
  · intro h
    have hlen0 : s.registry.length ≠ 0 := fun hc => h (List.length_eq_zero.mp hc)
    have hlen1 : 1 ≤ (s.registry.length : ℤ) := by
      have := Nat.pos_of_ne_zero hlen0
      exact_mod_cast this
    have hb1 : 0 ≤ moveFocusIdx delta s := by
      unfold moveFocusIdx
      omega
    have hb2 : (moveFocusIdx delta s).toNat < s.registry.length := by
      have : moveFocusIdx delta s ≤ (s.registry.length : ℤ) - 1 := by
        unfold moveFocusIdx
        omega
      omega
    have hform : moveFocus delta s
        = (if (s.registry.getD (moveFocusIdx delta s).toNat ⟨"", false⟩).node
           then (⟨s.registry,
                  some (s.registry.getD (moveFocusIdx delta s).toNat ⟨"", false⟩).id⟩
                 : RouterState)
           else s) := by
      simp only [moveFocus, if_neg hlen0]
      have hidx :
          (if (if max 0 (findIndexJS (fun e => s.currentId = some e.id) s.registry)
                    + delta < 0 then 0
               else max 0 (findIndexJS (fun e => s.currentId = some e.id) s.registry)
                    + delta)
              ≥ (s.registry.length : ℤ)
           then (s.registry.length : ℤ) - 1
           else if max 0 (findIndexJS (fun e => s.currentId = some e.id) s.registry)
                    + delta < 0 then 0
                else max 0 (findIndexJS (fun e => s.currentId = some e.id) s.registry)
                    + delta)
          = moveFocusIdx delta s := by
        unfold moveFocusIdx
        split_ifs <;> omega
      rw [hidx]
    have hmem : s.registry.getD (moveFocusIdx delta s).toNat ⟨"", false⟩ ∈ s.registry := by
      rw [List.getD_eq_getElem?_getD, List.getElem?_eq_getElem hb2]
      exact List.getElem_mem hb2
    refine ⟨hb1, hb2, ?_, ?_⟩
    · intro hnode
      exact ⟨by rw [hform, if_pos hnode], List.mem_map_of_mem Entry.id hmem⟩
    · intro hnode
      rw [hform, hnode]
      simp

/-- Witness for C7 on a two-entry registry with live nodes: `moveFocus(1)`
from the first entry lands on the second. -/
theorem claim7_witness :
    moveFocus 1 ⟨[⟨"a", true⟩, ⟨"b", true⟩], some "a"⟩
      = ⟨[⟨"a", true⟩, ⟨"b", true⟩], some "b"⟩ :=
  ((claim7_moveFocus_clamps 1 ⟨[⟨"a", true⟩, ⟨"b", true⟩], some "a"⟩).2
    (by decide)).2.2.1 (by decide) |>.1.trans (by decide)

/-- The invariant behind the completion contract: once completed the interval
is cancelled, and `onComplete` has fired exactly once when completed and never
before. -/
def CompletionInv (s : State) : Prop :=
  (s.completed = true → s.active = false)
  ∧ s.onCompleteCount = (if s.completed then 1 else 0)

/-- The engine's `tick` preserves the completion invariant. -/
theorem completionInv_tick (now : ℤ) (s : State) (h : CompletionInv s) :
    CompletionInv (tick now s) := by
  obtain ⟨h1, h2⟩ := h
  simp only [CompletionInv, tick]
  split_ifs with hc hr <;> simp_all

/-- Every engine event preserves the completion invariant. -/
theorem completionInv_step (s : State) (e : Event) (h : CompletionInv s) :
    CompletionInv (step s e) := by
  rcases e with now | now | now | now
  · show CompletionInv (scheduledTick now s)
    unfold scheduledTick
    split_ifs
    · exact h
    · exact completionInv_tick now s h
    · exact h
  · show CompletionInv (pause now s)
    unfold pause
    split_ifs
    · exact h
    · exact ⟨h.1, h.2⟩
  · show CompletionInv (resume now s)
    unfold resume
    split_ifs
    · exact h
    · exact ⟨h.1, h.2⟩
  · exact ⟨fun _ => rfl, h.2⟩

/-- A whole trace preserves the completion invariant. -/
theorem completionInv_run (s : State) (evts : List Event) (h : CompletionInv s) :
    CompletionInv (run s evts) := by
  induction evts generalizing s with
  | nil => exact h
  | cons e es ih => exact ih (step s e) (completionInv_step s e h)

/-- The engine state created by `countdown` satisfies the completion
invariant (whatever the duration: the priming tick may itself complete). -/
theorem completionInv_init (d t : ℤ) : CompletionInv (init d t) := by
  unfold init
  apply completionInv_tick
  exact ⟨by simp, by simp⟩

/-- After completion every event is a no-op on the state. -/
theorem step_of_completed (s : State) (e : Event) (hinv : CompletionInv s)
    (hc : s.completed = true) : step s e = s := by
  have hact : s.active = false := hinv.1 hc
  rcases e with now | now | now | now
  · simp [step, scheduledTick, hact]
  · simp [step, pause, hc]
  · simp [step, resume, hc]
  · show cancel s = s
    unfold cancel
    cases s
    simp_all

/-- After completion every whole trace is a no-op on the state. -/
theorem run_of_completed (s : State) (evts : List Event) (hinv : CompletionInv s)
    (hc : s.completed = true) : run s evts = s := by
  induction evts with
  | nil => rfl
  | cons e es ih =>
      show run (step s e) es = s
      rw [step_of_completed s e hinv hc]
      exact ih

/-- C2: along every event trace of an engine, `onComplete` fires at most once
and has fired exactly once precisely when `completed` is true; completion is
triggered by a `tick` exactly when the computed remaining reaches 0; once
completed, the interval is cancelled (no further ticks are scheduled) and
every further tick / pause / resume / cancel event leaves the state unchanged
— in particular `completed` never becomes false again and `onComplete` is
never fired a second time. -/
theorem claim2_completes_once (d t0 : ℤ) (evts : List Event) :
    (run (init d t0) evts).onCompleteCount ≤ 1
    ∧ ((run (init d t0) evts).onCompleteCount = 1
        ↔ (run (init d t0) evts).completed = true)
    ∧ ((run (init d t0) evts).completed = true →
        (run (init d t0) evts).active = false)
    ∧ (∀ more, (run (init d t0) evts).completed = true →
        run (run (init d t0) evts) more = run (init d t0) evts)
    ∧ ((run (init d t0) evts).completed = true →
        ∀ more, (run (init d t0) (evts ++ more)).completed = true)
    ∧ (∀ (s : State) (now : ℤ), s.completed = false →
        ((tick now s).completed = true ↔ computeRemaining s now ≤ 0)) := by
  obtain ⟨h1, h2⟩ := completionInv_run (init d t0) evts (completionInv_init d t0)
  refine ⟨?_, ?_, h1,
    fun more hc => run_of_completed _ more ⟨h1, h2⟩ hc, ?_, ?_⟩
  · rw [h2]
    split <;> omega
  · rw [h2]
    split <;> simp_all
  · intro hc more
    show (run (init d t0) (evts ++ more)).completed = true
    rw [run, List.foldl_append]
    show (run (run (init d t0) evts) more).completed = true
    rw [run_of_completed _ more ⟨h1, h2⟩ hc]
    exact hc
  · intro s now hc
    simp only [tick, hc, Bool.false_eq_true, if_false]
    split_ifs with hr
    · simp [hr]
    · simpa using hr

/-- Witness for C2: `countdown(5, …)` created at time 0 and ticked at
time 5000 has completed, fired `onComplete` exactly once, and a later
`pause()` changes nothing. -/
theorem claim2_witness :
    (run (init 5 0) [Event.tick 5000]).onCompleteCount = 1
    ∧ run (run (init 5 0) [Event.tick 5000]) [Event.pause 6000]
        = run (init 5 0) [Event.tick 5000] :=
  ⟨(claim2_completes_once 5 0 [Event.tick 5000]).2.1.mpr (by decide),
   (claim2_completes_once 5 0 [Event.tick 5000]).2.2.2.1 [Event.pause 6000] (by decide)⟩

/-- The reported remaining value never increases as the clock advances on a
fixed state, and is constant in the clock while paused. -/
theorem computeRemaining_antitone (s : State) {t1 t2 : ℤ} (h : t1 ≤ t2) :
    computeRemaining s t2 ≤ computeRemaining s t1 := by
  unfold computeRemaining effectiveNow
  split_ifs
  · exact le_rfl
  · apply ceilDiv1000_mono
    omega

/-- While paused, the reported remaining value does not depend on the clock. -/
theorem computeRemaining_paused_const (s : State) (hp : s.paused = true)
    (t1 t2 : ℤ) : computeRemaining s t1 = computeRemaining s t2 := by
  unfold computeRemaining effectiveNow
  rw [hp]
  simp

/-- The engine's `tick` never changes the fields that determine the reported
remaining value. -/
theorem computeRemaining_tick (now t : ℤ) (s : State) :
    computeRemaining (tick now s) t = computeRemaining s t := by
  simp only [tick]
  split_ifs <;> rfl

/-- No event changes the reported remaining value at the instant it happens:
ticks only report, `pause` freezes the value it sees, `resume` transfers the
frozen value into `accumulatedPause`, and `cancel` touches nothing. -/
theorem step_preserves_remaining (s : State) (e : Event) :
    computeRemaining (step s e) e.time = computeRemaining s e.time := by
  rcases e with now | now | now | now
  · show computeRemaining (scheduledTick now s) now = computeRemaining s now
    unfold scheduledTick
    split_ifs
    · rfl
    · exact computeRemaining_tick now now s
    · rfl
  · show computeRemaining (pause now s) now = computeRemaining s now
    unfold pause
    split_ifs with hg
    · rfl
    · simp only [Bool.or_eq_true, not_or, Bool.not_eq_true] at hg
      simp [computeRemaining, effectiveNow, hg.1]
  · show computeRemaining (resume now s) now = computeRemaining s now
    unfold resume
    split_ifs with hg
    · rfl
    · have hp : s.paused = true := by
        cases hb : s.paused
        · exact absurd (by simp [hb]) hg
        · rfl
      simp only [computeRemaining, effectiveNow, ceilDiv1000, hp]
      simp only [Bool.false_eq_true, if_false, if_true]
      omega
  · rfl

/-- The chain of observed remaining values along a time-ordered trace is
non-increasing. -/
theorem obsSeq_chain : ∀ (evts : List Event) (s : State) (t0 : ℤ),
    timesMono t0 evts →
    List.Chain' (fun a b => b ≤ a) (computeRemaining s t0 :: obsSeq s evts)
  | [], _, _, _ => List.chain'_singleton _
  | e :: es, s, t0, h => by
    rw [obsSeq, List.chain'_cons]
    exact ⟨(step_preserves_remaining s e).le.trans
        (computeRemaining_antitone s h.1),
      obsSeq_chain es (step s e) e.time h.2⟩

/-- C3: for every engine state and every interleaving of pause/resume/tick/
cancel events at nondecreasing clock times, the observed sequence of
`getState().remaining` values is monotonically non-increasing; it is constant
in the clock while paused (and `pause` freezes exactly the value observed at
pause time), so the value never increases. -/
theorem claim3_remaining_monotone (s : State) (t0 : ℤ) (evts : List Event)
    (h : timesMono t0 evts) :
    List.Chain' (fun a b => b ≤ a) (computeRemaining s t0 :: obsSeq s evts)
    ∧ (∀ (u : State) (t1 t2 : ℤ), u.paused = true →
        computeRemaining u t1 = computeRemaining u t2)
    ∧ (∀ (u : State) (t t' : ℤ), u.paused = false → u.completed = false →
        computeRemaining (pause t u) t' = computeRemaining u t)
    ∧ (∀ (u : State) (e : Event),
        computeRemaining (step u e) e.time = computeRemaining u e.time) := by
  refine ⟨obsSeq_chain evts s t0 h,
    fun u t1 t2 hp => computeRemaining_paused_const u hp t1 t2, ?_,
    step_preserves_remaining⟩
  intro u t t' hp hc
  have hpp : (pause t u).paused = true := by
    simp [pause, hp, hc]
  exact (computeRemaining_paused_const (pause t u) hpp t' t).trans
    (step_preserves_remaining u (.pause t))

/-- Witness for C3 on a concrete pause/resume trace of `countdown(5, …)`. -/
theorem claim3_witness :
    List.Chain' (fun a b => b ≤ a)
      (computeRemaining (init 5 0) 0 :: obsSeq (init 5 0)
        [Event.tick 250, Event.pause 500, Event.tick 750,
         Event.resume 1500, Event.tick 2000]) :=
  (claim3_remaining_monotone (init 5 0) 0
    [Event.tick 250, Event.pause 500, Event.tick 750,
     Event.resume 1500, Event.tick 2000]
    (by simp [timesMono, Event.time])).1

/-- Witness for C9: registering an unseen id appends its entry at the end of
the insertion order. -/
theorem claim9_witness :
    registrySet "a" true [⟨"b", true⟩] = [⟨"b", true⟩, ⟨"a", true⟩] :=
  (claim9_register_disposer "a" true [⟨"b", true⟩]).1 (by decide)

end FitnessTimer
